import Mathlib

/-!
Verification development for the opmed surgery-scheduling pipeline.

The Python sources are shallowly embedded:

* datetimes are modelled as integer seconds on the UTC timeline
  (`ℤ`); all datetime arithmetic in the sources is exact at this
  resolution;
* Python float parameters from the configuration are modelled as exact
  rationals represented by an explicit numerator/denominator pair
  (`Frac`), kept unnormalised so that every operation is
  kernel-computable;
* Python's builtin `round` (banker's rounding, used as `int(round(x))`
  throughout the sources) is modelled by `pyRoundF`;
* the CP-SAT model built by `ModelBuilder.build` is embedded as the set
  of its constraints: `Feasible` is the conjunction, over an explicit
  valuation of every decision variable the builder creates, of exactly
  the constraints the builder posts.
-/

/-- Exact rational value `n / d`, kept unnormalised.  Models the real
value of a Python float expression; all fractions built below have a
positive denominator. -/
structure Frac where
  n : ℤ
  d : ℤ
deriving DecidableEq, Repr

/-- Embed an integer as a fraction. -/
def Frac.ofInt (z : ℤ) : Frac := ⟨z, 1⟩

/-- Product of two fractions. -/
def Frac.mul (a b : Frac) : Frac := ⟨a.n * b.n, a.d * b.d⟩

/-- Sum of two fractions. -/
def Frac.add (a b : Frac) : Frac := ⟨a.n * b.d + b.n * a.d, a.d * b.d⟩

/-- Difference of two fractions. -/
def Frac.sub (a b : Frac) : Frac := ⟨a.n * b.d - b.n * a.d, a.d * b.d⟩

/-- Quotient of two fractions. -/
def Frac.div (a b : Frac) : Frac := ⟨a.n * b.d, a.d * b.n⟩

/-- Comparison `a < b`, valid when both denominators are positive. -/
def Frac.lt (a b : Frac) : Prop := a.n * b.d < b.n * a.d

/-- Comparison `a ≤ b`, valid when both denominators are positive. -/
def Frac.le (a b : Frac) : Prop := a.n * b.d ≤ b.n * a.d

instance (a b : Frac) : Decidable (Frac.lt a b) := by
  unfold Frac.lt; infer_instance

instance (a b : Frac) : Decidable (Frac.le a b) := by
  unfold Frac.le; infer_instance

/-- Python's builtin `round` on an exact fraction with positive
denominator: round-half-to-even, as used by `int(round(x))` in the
sources. -/
def pyRoundF (q : Frac) : ℤ :=
  let f : ℤ := Int.fdiv q.n q.d
  let r : ℤ := q.n - f * q.d
  if 2 * r < q.d then f
  else if q.d < 2 * r then f + 1
  else if f % 2 = 0 then f else f + 1

example : pyRoundF ⟨5, 2⟩ = 2 := by decide
example : pyRoundF ⟨3, 2⟩ = 2 := by decide
example : pyRoundF ⟨7, 5⟩ = 1 := by decide
example : pyRoundF ⟨-1, 2⟩ = 0 := by decide
example : pyRoundF ⟨-3, 2⟩ = -2 := by decide
example : pyRoundF ⟨12, 1⟩ = 12 := by decide

/-- One input surgery record (`opmed.schemas.models.Surgery`).  The two
timestamps are timezone-aware datetimes in the source, modelled as
seconds on the UTC timeline. -/
structure Surgery where
  surgery_id : String
  start_time : ℤ
  end_time : ℤ
deriving DecidableEq, Repr

/-- Runtime configuration (`opmed.schemas.models.Config`), restricted to
the fields the solver core and validator read.  Python float fields are
modelled as exact fractions. -/
structure Config where
  time_unit : Frac
  rooms_max : ℕ
  shift_min : Frac
  shift_max : Frac
  shift_overtime : Frac
  overtime_multiplier : Frac
  buffer : Frac
  utilization_target : Frac
  enforce_surgery_duration_limit : Bool
  activation_penalty : Frac
deriving DecidableEq, Repr

/-- The field constraints pydantic enforces when a `Config` is
constructed (`gt=0` / `ge=0` bounds in `models.py`), together with the
representation invariant that every fraction has a positive
denominator. -/
def Config.Wf (c : Config) : Prop :=
  0 < c.time_unit.d ∧ 0 < c.time_unit.n ∧
  0 < c.shift_min.d ∧ 0 < c.shift_min.n ∧
  0 < c.shift_max.d ∧ 0 < c.shift_max.n ∧
  0 < c.shift_overtime.d ∧ 0 ≤ c.shift_overtime.n ∧
  0 < c.overtime_multiplier.d ∧
  0 < c.buffer.d ∧ 0 < c.buffer.n ∧
  0 < c.utilization_target.d ∧ 0 ≤ c.utilization_target.n ∧
  0 < c.activation_penalty.d ∧ 0 ≤ c.activation_penalty.n ∧
  1 ≤ c.rooms_max

instance (c : Config) : Decidable (Config.Wf c) := by
  unfold Config.Wf; infer_instance

/-! ## SurgeriesLoader (`opmed/dataloader/surgeries_loader.py`) -/

/-- One raw CSV data row after `_strip_row`.  `surgery_id = ""` models a
missing/empty id cell (the source reads `row.get("surgery_id") or ""`);
`none` in a time field models a string on which
`datetime.fromisoformat` raises. -/
structure RawRow where
  surgery_id : String
  start_time : Option ℤ
  end_time : Option ℤ
deriving DecidableEq, Repr

/-- One recorded row-level issue; the source also stores a line number,
a message and the offending id, of which the claims only need the kind
and the line number. -/
structure Issue where
  kind : String
  line_no : ℕ
deriving DecidableEq, Repr

/-- Result envelope of the loader (`opmed.dataloader.types.LoadResult`). -/
structure LoadResult where
  success : Bool
  surgeries : List Surgery
  errors : List Issue
  total_rows : ℕ
  kept_rows : ℕ
deriving DecidableEq, Repr

/-- The row loop of `_rows_to_result`, with the source's per-row checks
in order: missing id, unparsable datetime, `start >= end`, duplicate
id.  `Surgery` model construction (step 7 of the source) cannot fail on
well-typed fields, so the `schema_error` branch is unreachable in the
embedding.  Issues and parsed surgeries are accumulated, and `seen`
remembers the ids of successfully parsed rows. -/
def processRows : List RawRow → ℕ → List String → List Issue × List Surgery
  | [], _, _ => ([], [])
  | r :: rest, idx, seen =>
    if r.surgery_id = "" then
      let p := processRows rest (idx + 1) seen
      (⟨"missing_id", idx⟩ :: p.1, p.2)
    else
      match r.start_time, r.end_time with
      | some s, some e =>
          if s < e then
            if r.surgery_id ∈ seen then
              let p := processRows rest (idx + 1) seen
              (⟨"duplicate_id", idx⟩ :: p.1, p.2)
            else
              let p := processRows rest (idx + 1) (r.surgery_id :: seen)
              (p.1, (⟨r.surgery_id, s, e⟩ : Surgery) :: p.2)
          else
            let p := processRows rest (idx + 1) seen
            (⟨"non_positive_duration", idx⟩ :: p.1, p.2)
      | _, _ =>
          let p := processRows rest (idx + 1) seen
          (⟨"invalid_datetime", idx⟩ :: p.1, p.2)

/-- Stable sort by `start_time`, modelling Python's stable
`list.sort(key=lambda s: s.start_time)`. -/
def sortSurgeries (l : List Surgery) : List Surgery :=
  List.insertionSort (fun a b => a.start_time ≤ b.start_time) l

/-- `SurgeriesLoader._rows_to_result`: per-row validation, then either
the failure envelope (empty surgery list) or the success envelope with
the surgeries sorted by start time. -/
def rows_to_result (rows : List RawRow) : LoadResult :=
  let p := processRows rows 2 []
  if p.1.isEmpty then
    { success := true
      surgeries := sortSurgeries p.2
      errors := []
      total_rows := rows.length
      kept_rows := p.2.length }
  else
    { success := false
      surgeries := []
      errors := p.1
      total_rows := rows.length
      kept_rows := 0 }

/-- Row-level validity used to state C6 from the claim's words: the row
has a non-empty id, both datetimes parse, and `start < end`. -/
def rowOkB (r : RawRow) : Bool :=
  decide (r.surgery_id ≠ "") &&
    (match r.start_time, r.end_time with
     | some s, some e => decide (s < e)
     | _, _ => false)

/-- C6's notion of a row-level issue being present: some row is locally
invalid, or two rows carry the same id. -/
def HasRowIssue (rows : List RawRow) : Prop :=
  (∃ r ∈ rows, rowOkB r = false) ∨ ¬ (rows.map RawRow.surgery_id).Nodup

instance (rows : List RawRow) : Decidable (HasRowIssue rows) := by
  unfold HasRowIssue; infer_instance

theorem processRows_issues_nil (rows : List RawRow) :
    ∀ idx seen, (processRows rows idx seen).1 = [] ↔
      ((∀ r ∈ rows, rowOkB r = true) ∧ (rows.map RawRow.surgery_id).Nodup ∧
        ∀ r ∈ rows, r.surgery_id ∉ seen) := by
  induction rows with
  | nil => simp [processRows]
  | cons r rest ih =>
    intro idx seen
    obtain ⟨rid, rstart, rend⟩ := r
    by_cases hid : rid = ""
    · rw [processRows, if_pos hid]
      simp only [List.cons_ne_nil, false_iff, not_and]
      intro hok
      have := hok ⟨rid, rstart, rend⟩ (List.mem_cons_self _ rest)
      rw [rowOkB] at this
      simp [hid] at this
    · rcases rstart with _ | s
      · rw [processRows, if_neg hid]
        simp only [List.cons_ne_nil, false_iff, not_and]
        intro hok
        have := hok ⟨rid, none, rend⟩ (List.mem_cons_self _ rest)
        rw [rowOkB] at this
        simp at this
      · rcases rend with _ | e
        · rw [processRows, if_neg hid]
          simp only [List.cons_ne_nil, false_iff, not_and]
          intro hok
          have := hok ⟨rid, some s, none⟩ (List.mem_cons_self _ rest)
          rw [rowOkB] at this
          simp at this
        · by_cases hlt : s < e
          · by_cases hdup : rid ∈ seen
            · rw [processRows, if_neg hid]
              dsimp only
              rw [if_pos hlt, if_pos hdup]
              simp only [List.cons_ne_nil, false_iff, not_and]
              intro _ _ hseen
              exact absurd hdup (hseen ⟨rid, some s, some e⟩ (List.mem_cons_self _ rest))
            · rw [processRows, if_neg hid]
              dsimp only
              rw [if_pos hlt, if_neg hdup]
              rw [ih]
              constructor
              · rintro ⟨hok, hnd, hseen⟩
                refine ⟨?_, ?_, ?_⟩
                · intro x hx
                  rcases List.mem_cons.mp hx with hx | hx
                  · subst hx; rw [rowOkB]; simp [hid, hlt]
                  · exact hok x hx
                · rw [List.map_cons, List.nodup_cons]
                  refine ⟨?_, hnd⟩
                  intro hmem
                  rcases List.mem_map.mp hmem with ⟨x, hx, hxid⟩
                  have := hseen x hx
                  rw [List.mem_cons] at this
                  push_neg at this
                  exact this.1 hxid
                · intro x hx
                  rcases List.mem_cons.mp hx with hx | hx
                  · subst hx; exact hdup
                  · have := hseen x hx
                    rw [List.mem_cons] at this
                    push_neg at this
                    exact this.2
              · rintro ⟨hok, hnd, hseen⟩
                rw [List.map_cons, List.nodup_cons] at hnd
                refine ⟨?_, hnd.2, ?_⟩
                · intro x hx; exact hok x (List.mem_cons_of_mem _ hx)
                · intro x hx
                  rw [List.mem_cons]
                  push_neg
                  constructor
                  · intro hxid
                    exact hnd.1 (hxid ▸ List.mem_map.mpr ⟨x, hx, rfl⟩)
                  · exact hseen x (List.mem_cons_of_mem _ hx)
          · rw [processRows, if_neg hid]
            dsimp only
            rw [if_neg hlt]
            simp only [List.cons_ne_nil, false_iff, not_and]
            intro hok
            have := hok ⟨rid, some s, some e⟩ (List.mem_cons_self _ rest)
            rw [rowOkB] at this
            simp [hid, hlt] at this

theorem processRows_length (rows : List RawRow) :
    ∀ idx seen, (processRows rows idx seen).1 = [] →
      (processRows rows idx seen).2.length = rows.length := by
  induction rows with
  | nil => simp [processRows]
  | cons r rest ih =>
    intro idx seen h
    obtain ⟨rid, rstart, rend⟩ := r
    by_cases hid : rid = ""
    · rw [processRows, if_pos hid] at h; cases h
    · rcases rstart with _ | s
      · rw [processRows, if_neg hid] at h
        cases h
      · rcases rend with _ | e
        · rw [processRows, if_neg hid] at h
          cases h
        · by_cases hlt : s < e
          · by_cases hdup : rid ∈ seen
            · rw [processRows, if_neg hid] at h
              dsimp only at h
              rw [if_pos hlt, if_pos hdup] at h
              cases h
            · rw [processRows, if_neg hid] at h ⊢
              dsimp only at h ⊢
              rw [if_pos hlt, if_neg hdup] at h ⊢
              simpa using ih (idx + 1) (rid :: seen) h
          · rw [processRows, if_neg hid] at h
            dsimp only at h
            rw [if_neg hlt] at h
            cases h

instance surgeryLeTotal :
    IsTotal Surgery (fun a b => a.start_time ≤ b.start_time) :=
  ⟨fun x y => Int.le_total x.start_time y.start_time⟩

instance surgeryLeTrans :
    IsTrans Surgery (fun a b => a.start_time ≤ b.start_time) :=
  ⟨fun _ _ _ hab hbc => le_trans hab hbc⟩

theorem hasRowIssue_iff (rows : List RawRow) :
    HasRowIssue rows ↔
      ¬ ((∀ r ∈ rows, rowOkB r = true) ∧ (rows.map RawRow.surgery_id).Nodup) := by
  unfold HasRowIssue
  constructor
  · rintro (⟨r, hr, hbad⟩ | hnd) ⟨hok, hnodup⟩
    · rw [hok r hr] at hbad; cases hbad
    · exact hnd hnodup
  · intro h
    by_cases hok : ∀ r ∈ rows, rowOkB r = true
    · right; intro hnd; exact h ⟨hok, hnd⟩
    · left
      push_neg at hok
      rcases hok with ⟨r, hr, hbad⟩
      exact ⟨r, hr, by simpa using hbad⟩

/-- C6: `SurgeriesLoader._rows_to_result` returns the failure envelope
(`success = false`, empty surgery list) exactly when some row-level
issue — missing id, unparsable datetime, `start >= end`, or a duplicate
id — is present, and otherwise the success envelope with no errors and
one `Surgery` per input row. -/
theorem rows_to_result_envelope (rows : List RawRow) :
    (HasRowIssue rows →
      (rows_to_result rows).success = false ∧ (rows_to_result rows).surgeries = []) ∧
    (¬ HasRowIssue rows →
      (rows_to_result rows).success = true ∧ (rows_to_result rows).errors = [] ∧
        (rows_to_result rows).surgeries.length = rows.length) := by
  have hiff := processRows_issues_nil rows 2 []
  rw [hasRowIssue_iff]
  constructor
  · intro hbad
    have hne : ¬ (processRows rows 2 []).1 = [] := by
      intro hnil
      exact hbad ⟨(hiff.mp hnil).1, (hiff.mp hnil).2.1⟩
    rw [rows_to_result]
    rw [if_neg (by simpa [List.isEmpty_iff] using hne)]
    exact ⟨rfl, rfl⟩
  · intro hgood
    rw [not_not] at hgood
    have hnil : (processRows rows 2 []).1 = [] :=
      hiff.mpr ⟨hgood.1, hgood.2, fun r _ => List.not_mem_nil _⟩
    rw [rows_to_result]
    rw [if_pos (by simpa [List.isEmpty_iff] using hnil)]
    refine ⟨rfl, rfl, ?_⟩
    have hlen := processRows_length rows 2 [] hnil
    calc (sortSurgeries (processRows rows 2 []).2).length
        = (processRows rows 2 []).2.length :=
          (List.perm_insertionSort _ _).length_eq
      _ = rows.length := hlen

def exRowsBad : List RawRow :=
  [⟨"S1", some 28800, some 32400⟩, ⟨"", some 0, some 600⟩]

def exRowsGood : List RawRow :=
  [⟨"S2", some 33000, some 36000⟩, ⟨"S1", some 28800, some 32400⟩]

theorem rows_to_result_envelope_witness :
    (HasRowIssue exRowsBad ∧
      (rows_to_result exRowsBad).success = false ∧ (rows_to_result exRowsBad).surgeries = []) ∧
    (¬ HasRowIssue exRowsGood ∧
      (rows_to_result exRowsGood).success = true ∧ (rows_to_result exRowsGood).errors = [] ∧
        (rows_to_result exRowsGood).surgeries.length = exRowsGood.length) :=
  ⟨⟨by decide, (rows_to_result_envelope exRowsBad).1 (by decide)⟩,
   ⟨by decide, (rows_to_result_envelope exRowsGood).2 (by decide)⟩⟩

/-- C10: whenever the loader returns a success envelope, the surgeries
are sorted by `start_time` ascending, whatever the input row order. -/
theorem rows_to_result_sorted (rows : List RawRow)
    (h : (rows_to_result rows).success = true) :
    List.Sorted (fun a b : Surgery => a.start_time ≤ b.start_time)
      ((rows_to_result rows).surgeries) := by
  rw [rows_to_result] at h ⊢
  by_cases hE : (processRows rows 2 []).1.isEmpty
  · rw [if_pos hE]
    exact List.sorted_insertionSort _ _
  · rw [if_neg hE] at h
    cases h

theorem rows_to_result_sorted_witness :
    List.Sorted (fun a b : Surgery => a.start_time ≤ b.start_time)
      ((rows_to_result exRowsGood).surgeries) :=
  rows_to_result_sorted exRowsGood (by decide)

/-! ## Validator (`opmed/validator/validator.py`) -/

/-- One output schedule record (`opmed.schemas.models.SolutionRow`),
timestamps modelled as seconds on the UTC timeline. -/
structure SolutionRow where
  surgery_id : String
  start_time : ℤ
  end_time : ℤ
  anesthetist_id : String
  room_id : String
deriving DecidableEq, Repr

/-- Duration in hours of a span of `sec` seconds (`_hours`). -/
def hoursFrac (sec : ℤ) : Frac := ⟨sec, 3600⟩

/-- Python's binary `max(a, b)`: returns `a` when `a ≥ b`. -/
def fracMax (a b : Frac) : Frac := if Frac.le b a then a else b

/-- Stable sort of solution rows by `start_time`
(`_sorted_intervals` / `sorted(rows, key=...)`). -/
def pySortRows (l : List SolutionRow) : List SolutionRow :=
  List.insertionSort (fun a b => a.start_time ≤ b.start_time) l

/-- Distinct strings of a list in first-occurrence order, as a Python
loop with a `seen` set produces them: skip already-seen values, emit
new ones. -/
def firstOccursAux : List String → List String → List String
  | [], _ => []
  | x :: t, seen =>
      if x ∈ seen then firstOccursAux t seen else x :: firstOccursAux t (x :: seen)

/-- Distinct strings of a list in first-occurrence order. -/
def firstOccurs (l : List String) : List String := firstOccursAux l []

/-- Keys of a `defaultdict(list)` grouping, in first-occurrence order. -/
def keysInOrder (key : SolutionRow → String) (rows : List SolutionRow) : List String :=
  firstOccurs (rows.map key)

/-- Grouping of rows by a key, exactly as `defaultdict(list)` grouping:
keys in first-occurrence order, each group keeping the input order. -/
def groupByKey (key : SolutionRow → String) (rows : List SolutionRow) :
    List (String × List SolutionRow) :=
  (keysInOrder key rows).map (fun k => (k, rows.filter (fun r => key r == k)))

/-- Adjacent pairs of a list (`zip(rows, rows[1:])`). -/
def adjPairs (l : List SolutionRow) : List (SolutionRow × SolutionRow) :=
  l.zip l.tail

/-- Earliest start among rows (groups are never empty). -/
def minStarts : List SolutionRow → ℤ
  | [] => 0
  | r :: rest => rest.foldl (fun m x => min m x.start_time) r.start_time

/-- Latest end among rows. -/
def maxEnds : List SolutionRow → ℤ
  | [] => 0
  | r :: rest => rest.foldl (fun m x => max m x.end_time) r.end_time

/-- Shift span `max_end − min_start` of a group, in seconds. -/
def spanOf (rows : List SolutionRow) : ℤ := maxEnds rows - minStarts rows

/-- Duplicate-id detection of `_check_data_integrity` step (2): one
error entry per later occurrence of an already seen id. -/
def dupTags : List SolutionRow → List String → List String
  | [], _ => []
  | r :: rest, seen =>
      (if r.surgery_id ∈ seen then ["DataIntegrity"] else []) ++
        dupTags rest (r.surgery_id :: seen)

/-- The `surgery_by_id` dict: later list entries overwrite earlier ones. -/
def lookupSurgery (surgeries : List Surgery) (sid : String) : Option Surgery :=
  surgeries.reverse.find? (fun s => s.surgery_id == sid)

/-- Error tags recorded by `_check_data_integrity` (V7), in source
order: duplicates, missing ids, unknown ids, changed timestamps.  The
field-type checks of step (1) cannot fail on well-typed rows. -/
def dataIntegrityTags (asg : List SolutionRow) (surgeries : List Surgery) : List String :=
  let inputIds := surgeries.map Surgery.surgery_id
  let assignedIds := asg.map SolutionRow.surgery_id
  dupTags asg [] ++
    (if inputIds.any (fun i => !(assignedIds.contains i)) then ["DataIntegrity"] else []) ++
    (if assignedIds.any (fun i => !(inputIds.contains i)) then ["DataIntegrity"] else []) ++
    ((asg.filter (fun r =>
        match lookupSurgery surgeries r.surgery_id with
        | some src => !(r.start_time == src.start_time && r.end_time == src.end_time)
        | none => false)).map (fun _ => "DataIntegrity"))

/-- Error tags of `_check_room_overlaps` (V2): per room, sort by start
and record each adjacent pair with `cur.start < prev.end`. -/
def roomOverlapTags (asg : List SolutionRow) : List String :=
  ((groupByKey SolutionRow.room_id asg).flatMap (fun g =>
    (adjPairs (pySortRows g.2)).filter (fun p =>
      decide (p.2.start_time < p.1.end_time)))).map (fun _ => "RoomOverlap")

/-- Error tags of `_check_no_overlap` (V1): per anesthetist, sort by
start and record each adjacent pair with `start_next < end_i`. -/
def noOverlapTags (asg : List SolutionRow) : List String :=
  ((groupByKey SolutionRow.anesthetist_id asg).flatMap (fun g =>
    (adjPairs (pySortRows g.2)).filter (fun p =>
      decide (p.2.start_time < p.1.end_time)))).map (fun _ => "NoOverlap")

/-- Error tags of `_check_buffer_between_rooms` (V3): per anesthetist,
adjacent pairs that switch room with a gap below `cfg.buffer` hours. -/
def bufferTags (asg : List SolutionRow) (cfg : Config) : List String :=
  ((groupByKey SolutionRow.anesthetist_id asg).flatMap (fun g =>
    (adjPairs (pySortRows g.2)).filter (fun p =>
      !(p.1.room_id == p.2.room_id) &&
        decide (Frac.lt (hoursFrac (p.2.start_time - p.1.end_time)) cfg.buffer)))).map
    (fun _ => "Buffer")

/-- Error tags of `_check_shift_limits` (V4): one error per anesthetist
whose span exceeds `shift_max` hours. -/
def shiftLimitTags (asg : List SolutionRow) (cfg : Config) : List String :=
  ((groupByKey SolutionRow.anesthetist_id asg).filter (fun g =>
    decide (Frac.lt cfg.shift_max (hoursFrac (spanOf g.2))))).map (fun _ => "ShiftLimits")

/-- Warning tags of `_check_shift_limits` (V4): one warning per
anesthetist whose span is within `shift_max` but below `shift_min`. -/
def shiftWarnTags (asg : List SolutionRow) (cfg : Config) : List String :=
  ((groupByKey SolutionRow.anesthetist_id asg).filter (fun g =>
    !(decide (Frac.lt cfg.shift_max (hoursFrac (spanOf g.2)))) &&
      decide (Frac.lt (hoursFrac (spanOf g.2)) cfg.shift_min))).map (fun _ => "ShiftLimits")

/-- Error tags of `_check_surgery_duration_limit` (V6): when
enforcement is on, one error per surgery longer than `shift_max`. -/
def durationTags (surgeries : List Surgery) (cfg : Config) : List String :=
  if cfg.enforce_surgery_duration_limit then
    (surgeries.filter (fun s =>
      decide (Frac.lt cfg.shift_max (hoursFrac (s.end_time - s.start_time))))).map
      (fun _ => "DurationLimits")
  else []

/-- Total surgery hours of `_compute_metrics_and_utilization` step (1). -/
def totalSurgeryHours (surgeries : List Surgery) : Frac :=
  surgeries.foldl
    (fun acc s => Frac.add acc (fracMax (hoursFrac (s.end_time - s.start_time)) ⟨0, 1⟩)) ⟨0, 1⟩

/-- Piecewise cost of one anesthetist group, step (3):
`base + (m − 1)·overtime`. -/
def anesthCost (g : List SolutionRow) (cfg : Config) : Frac :=
  let shiftH := fracMax (hoursFrac (spanOf g)) ⟨0, 1⟩
  let base := fracMax cfg.shift_min shiftH
  let overtime := fracMax ⟨0, 1⟩ (Frac.sub shiftH cfg.shift_overtime)
  Frac.add base (Frac.mul (Frac.sub cfg.overtime_multiplier ⟨1, 1⟩) overtime)

/-- The `Utilization` check flag (V5): false when the target is
positive and computed utilization is below it. -/
def utilizationOk (asg : List SolutionRow) (surgeries : List Surgery) (cfg : Config) : Bool :=
  let tc := (groupByKey SolutionRow.anesthetist_id asg).foldl
    (fun acc g => Frac.add acc (anesthCost g.2 cfg)) ⟨0, 1⟩
  let util := if decide (Frac.lt ⟨0, 1⟩ tc) then Frac.div (totalSurgeryHours surgeries) tc
    else ⟨0, 1⟩
  !(decide (Frac.lt ⟨0, 1⟩ cfg.utilization_target) && decide (Frac.lt util cfg.utilization_target))

/-- Validator accumulator state: recorded error tags, warning tags and
the `checks` dict (insertion-ordered, each key set once per run); the
source entries also carry messages and entities, on which no claim
depends. -/
structure ValState where
  errors : List String
  warnings : List String
  checks : List (String × Bool)
deriving DecidableEq, Repr

instance : DecidableEq (Except Unit ValState) := fun a b =>
  match a, b with
  | .ok x, .ok y =>
      if h : x = y then isTrue (by rw [h]) else isFalse (fun hh => h (by injection hh))
  | .error x, .error y => isTrue (by cases x; cases y; rfl)
  | .ok _, .error _ => isFalse (fun hh => by cases hh)
  | .error _, .ok _ => isFalse (fun hh => by cases hh)

/-- `Validator.run_all_checks`: data integrity first (raising, modelled
by `Except.error`, when the assignment set is empty or shares no id
with the input); on integrity failure the remaining checks are marked
failed and skipped; otherwise all checks run in source order. -/
def run_all_checks (asg : List SolutionRow) (surgeries : List Surgery) (cfg : Config) :
    Except Unit ValState :=
  if asg.isEmpty || !(asg.any (fun r => surgeries.any (fun s => s.surgery_id == r.surgery_id)))
  then .error ()
  else if !(dataIntegrityTags asg surgeries).isEmpty then
    .ok { errors := dataIntegrityTags asg surgeries
          warnings := []
          checks := [("DataIntegrity", false), ("RoomOverlap", false), ("NoOverlap", false),
            ("Buffer", false), ("ShiftLimits", false), ("DurationLimits", false),
            ("Utilization", false)] }
  else
    .ok { errors := dataIntegrityTags asg surgeries ++ roomOverlapTags asg ++
            noOverlapTags asg ++ bufferTags asg cfg ++
            shiftLimitTags asg cfg ++ durationTags surgeries cfg
          warnings := shiftWarnTags asg cfg ++
            (if utilizationOk asg surgeries cfg then [] else ["Utilization"])
          checks := [("DataIntegrity", true), ("RoomOverlap", (roomOverlapTags asg).isEmpty),
            ("NoOverlap", (noOverlapTags asg).isEmpty), ("Buffer", (bufferTags asg cfg).isEmpty),
            ("ShiftLimits", (shiftLimitTags asg cfg).isEmpty),
            ("DurationLimits", (durationTags surgeries cfg).isEmpty),
            ("Utilization", utilizationOk asg surgeries cfg)] }

/-- The four checks `build_report` treats as critical. -/
def criticalChecks : List String :=
  ["DataIntegrity", "RoomOverlap", "NoOverlap", "DurationLimits"]

/-- The `valid` flag computed by `Validator.build_report`: all critical
checks passed (missing entries default to `True`) and no recorded error
belongs to a critical check. -/
def build_report_valid (st : ValState) : Bool :=
  (criticalChecks.all (fun name => ((st.checks.lookup name).getD true))) &&
    !(st.errors.any (fun e => criticalChecks.contains e))

theorem dupTags_mem (l : List SolutionRow) :
    ∀ seen e, e ∈ dupTags l seen → e = "DataIntegrity" := by
  induction l with
  | nil => intro seen e h; cases h
  | cons r rest ih =>
    intro seen e h
    rw [dupTags] at h
    rcases List.mem_append.mp h with h | h
    · by_cases hs : r.surgery_id ∈ seen
      · rw [if_pos hs] at h; simpa using h
      · rw [if_neg hs] at h; cases h
    · exact ih _ e h

theorem dataIntegrityTags_mem (asg : List SolutionRow) (surgeries : List Surgery) :
    ∀ e ∈ dataIntegrityTags asg surgeries, e = "DataIntegrity" := by
  intro e h
  unfold dataIntegrityTags at h
  rcases List.mem_append.mp h with h | h
  · rcases List.mem_append.mp h with h | h
    · rcases List.mem_append.mp h with h | h
      · exact dupTags_mem asg [] e h
      · split at h
        · simpa using h
        · cases h
    · split at h
      · simpa using h
      · cases h
  · rcases List.mem_map.mp h with ⟨x, -, hx⟩
    exact hx.symm

theorem build_report_valid_iff (st : ValState) :
    build_report_valid st = true ↔
      ((∀ name ∈ criticalChecks, (st.checks.lookup name).getD true = true) ∧
        ∀ e ∈ st.errors, e ∉ criticalChecks) := by
  unfold build_report_valid
  rw [Bool.and_eq_true, List.all_eq_true, Bool.not_eq_true']
  rw [List.any_eq_false]
  constructor
  · rintro ⟨h1, h2⟩
    exact ⟨h1, fun e he hmem => by simpa [hmem] using h2 e he⟩
  · rintro ⟨h1, h2⟩
    refine ⟨h1, fun e he => ?_⟩
    simpa using h2 e he

/-- C2: for every input on which `run_all_checks` completes, the
`valid` flag of the report is true iff the four critical checks
(`DataIntegrity`, `RoomOverlap`, `NoOverlap`, `DurationLimits`) passed
and no recorded error belongs to one of them; every recorded error is
tagged by one of the six error-producing checks (`Utilization` never
records errors), so `Buffer`/`ShiftLimits`/`Utilization` failures never
make `valid` false; and when no anesthetist span exceeds `shift_max`
(in particular when spans are merely shorter than `shift_min`, which
only warns) no `ShiftLimits` error is recorded. -/
theorem validator_report_valid (asg : List SolutionRow) (surgeries : List Surgery)
    (cfg : Config) (st : ValState) (h : run_all_checks asg surgeries cfg = .ok st) :
    (build_report_valid st = true ↔
      ((∀ name ∈ criticalChecks, (st.checks.lookup name).getD true = true) ∧
        ∀ e ∈ st.errors, e ∉ criticalChecks)) ∧
    (∀ e ∈ st.errors,
      e ∈ ["DataIntegrity", "RoomOverlap", "NoOverlap", "Buffer", "ShiftLimits",
        "DurationLimits"]) ∧
    ((∀ g ∈ groupByKey SolutionRow.anesthetist_id asg,
        Frac.le (hoursFrac (spanOf g.2)) cfg.shift_max) → "ShiftLimits" ∉ st.errors) := by
  refine ⟨build_report_valid_iff st, ?_, ?_⟩
  · intro e he
    rw [run_all_checks] at h
    split at h
    · cases h
    · split at h
      · injection h with h
        subst h
        have := dataIntegrityTags_mem asg surgeries e he
        simp [this]
      · injection h with h
        subst h
        simp only [List.mem_append] at he
        rcases he with ((((hdi | hro) | hno) | hbu) | hsh) | hdu
        · have := dataIntegrityTags_mem asg surgeries e hdi
          simp [this]
        · rcases List.mem_map.mp hro with ⟨x, -, hx⟩
          simp [← hx]
        · rcases List.mem_map.mp hno with ⟨x, -, hx⟩
          simp [← hx]
        · rcases List.mem_map.mp hbu with ⟨x, -, hx⟩
          simp [← hx]
        · rcases List.mem_map.mp hsh with ⟨x, -, hx⟩
          simp [← hx]
        · unfold durationTags at hdu
          split at hdu
          · rcases List.mem_map.mp hdu with ⟨x, -, hx⟩
            simp [← hx]
          · cases hdu
  · intro hspans he
    rw [run_all_checks] at h
    split at h
    · cases h
    · split at h
      · injection h with h
        subst h
        have := dataIntegrityTags_mem asg surgeries _ he
        simp at this
      · injection h with h
        subst h
        have hempty : shiftLimitTags asg cfg = [] := by
          unfold shiftLimitTags
          rw [List.map_eq_nil_iff, List.filter_eq_nil_iff]
          intro g hg
          have hle := hspans g hg
          unfold Frac.lt
          unfold Frac.le at hle
          simp only [decide_eq_true_eq]
          unfold hoursFrac at hle ⊢
          omega
        simp only [List.mem_append, hempty] at he
        rcases he with ((((hdi | hro) | hno) | hbu) | hsh) | hdu
        · have := dataIntegrityTags_mem asg surgeries _ hdi
          simp at this
        · rcases List.mem_map.mp hro with ⟨x, -, hx⟩
          simp at hx
        · rcases List.mem_map.mp hno with ⟨x, -, hx⟩
          simp at hx
        · rcases List.mem_map.mp hbu with ⟨x, -, hx⟩
          simp at hx
        · cases hsh
        · unfold durationTags at hdu
          split at hdu
          · rcases List.mem_map.mp hdu with ⟨x, -, hx⟩
            simp at hx
          · cases hdu

def cfgEx : Config :=
  { time_unit := ⟨1, 12⟩
    rooms_max := 2
    shift_min := ⟨5, 1⟩
    shift_max := ⟨12, 1⟩
    shift_overtime := ⟨9, 1⟩
    overtime_multiplier := ⟨3, 2⟩
    buffer := ⟨1, 4⟩
    utilization_target := ⟨4, 5⟩
    enforce_surgery_duration_limit := true
    activation_penalty := ⟨0, 1⟩ }

def asgEx : List SolutionRow := [⟨"S1", 28800, 32400, "A001", "R0"⟩]

def surEx : List Surgery := [⟨"S1", 28800, 32400⟩]

def stEx : ValState :=
  match run_all_checks asgEx surEx cfgEx with
  | .ok st => st
  | .error _ => ⟨[], [], []⟩

theorem validator_report_valid_witness :
    (build_report_valid stEx = true ↔
      ((∀ name ∈ criticalChecks, (stEx.checks.lookup name).getD true = true) ∧
        ∀ e ∈ stEx.errors, e ∉ criticalChecks)) ∧
    (∀ e ∈ stEx.errors,
      e ∈ ["DataIntegrity", "RoomOverlap", "NoOverlap", "Buffer", "ShiftLimits",
        "DurationLimits"]) ∧
    ((∀ g ∈ groupByKey SolutionRow.anesthetist_id asgEx,
        Frac.le (hoursFrac (spanOf g.2)) cfgEx.shift_max) → "ShiftLimits" ∉ stEx.errors) :=
  validator_report_valid asgEx surEx cfgEx stEx (by decide)

/-! ## AssignmentExtractor rename (`scripts/run.py`, `_rename_anesthetists`) -/

/-- Position of the first occurrence of `y` in `l` (Python
`list.index`; total, `l.length` when absent). -/
def idxOf : List String → String → ℕ
  | [], _ => 0
  | x :: t, y => if x = y then 0 else idxOf t y + 1

/-- Python `f"{k:03d}"`: decimal digits left-padded with zeros to width
three. -/
def pad3 (k : ℕ) : String :=
  if k < 10 then "00" ++ toString k
  else if k < 100 then "0" ++ toString k
  else toString k

/-- The standardized label `"A" + zero-padded(i + 1, 3)` given to the
anesthetist of rank `i`. -/
def labelOf (i : ℕ) : String := "A" ++ pad3 (i + 1)

/-- `_rename_anesthetists`: sort a copy by `start_time`, collect the
distinct original ids in first-appearance order, and relabel every row
through the mapping `old_id ↦ labelOf rank`.  The source's dict
`id_mapping` is modelled by rank lookup (`idxOf`) in the
first-occurrence list, which is duplicate-free by construction. -/
def rename_anesthetists (assignments : List SolutionRow) : List SolutionRow :=
  if assignments.isEmpty then []
  else
    (pySortRows assignments).map (fun r =>
      { r with anesthetist_id :=
          labelOf (idxOf (firstOccurs ((pySortRows assignments).map SolutionRow.anesthetist_id))
            r.anesthetist_id) })

theorem firstOccursAux_mem (l : List String) :
    ∀ seen y, y ∈ firstOccursAux l seen ↔ (y ∈ l ∧ y ∉ seen) := by
  induction l with
  | nil => intro seen y; simp [firstOccursAux]
  | cons x t ih =>
    intro seen y
    rw [firstOccursAux]
    by_cases hx : x ∈ seen
    · rw [if_pos hx, ih]
      simp only [List.mem_cons]
      constructor
      · rintro ⟨h1, h2⟩; exact ⟨Or.inr h1, h2⟩
      · rintro ⟨h1, h2⟩
        refine ⟨h1.resolve_left fun he => h2 (he ▸ hx), h2⟩
    · rw [if_neg hx]
      simp only [List.mem_cons, ih, List.mem_cons]
      constructor
      · rintro (rfl | ⟨h1, h2⟩)
        · exact ⟨Or.inl rfl, hx⟩
        · push_neg at h2
          exact ⟨Or.inr h1, h2.2⟩
      · rintro ⟨rfl | h1, h2⟩
        · exact Or.inl rfl
        · by_cases hyx : y = x
          · exact Or.inl hyx
          · right
            exact ⟨h1, fun hm => hm.elim hyx h2⟩

theorem firstOccursAux_nodup (l : List String) :
    ∀ seen, (firstOccursAux l seen).Nodup := by
  induction l with
  | nil => intro seen; simp [firstOccursAux]
  | cons x t ih =>
    intro seen
    rw [firstOccursAux]
    by_cases hx : x ∈ seen
    · rw [if_pos hx]; exact ih seen
    · rw [if_neg hx]
      rw [List.nodup_cons]
      refine ⟨?_, ih (x :: seen)⟩
      intro hmem
      have := (firstOccursAux_mem t (x :: seen) x).mp hmem
      exact this.2 (List.mem_cons_self x seen)

theorem firstOccursAux_pairwise (l : List String) :
    ∀ seen, List.Pairwise (fun a b => idxOf l a < idxOf l b) (firstOccursAux l seen) := by
  induction l with
  | nil => intro seen; simp [firstOccursAux]
  | cons x t ih =>
    intro seen
    rw [firstOccursAux]
    by_cases hx : x ∈ seen
    · rw [if_pos hx]
      refine (ih seen).imp_of_mem ?_
      intro a b ha hb hab
      have ha' := (firstOccursAux_mem t seen a).mp ha
      have hb' := (firstOccursAux_mem t seen b).mp hb
      have hax : ¬ x = a := fun he => ha'.2 (he ▸ hx)
      have hbx : ¬ x = b := fun he => hb'.2 (he ▸ hx)
      rw [idxOf, if_neg hax, idxOf, if_neg hbx]
      omega
    · rw [if_neg hx]
      rw [List.pairwise_cons]
      constructor
      · intro b hb
        have hb' := (firstOccursAux_mem t (x :: seen) b).mp hb
        have hbx : ¬ x = b := by
          intro he
          exact hb'.2 (he ▸ List.mem_cons_self x seen)
        rw [idxOf, if_pos rfl, idxOf, if_neg hbx]
        omega
      · refine (ih (x :: seen)).imp_of_mem ?_
        intro a b ha hb hab
        have ha' := (firstOccursAux_mem t (x :: seen) a).mp ha
        have hb' := (firstOccursAux_mem t (x :: seen) b).mp hb
        have hax : ¬ x = a := fun he => ha'.2 (he ▸ List.mem_cons_self x seen)
        have hbx : ¬ x = b := fun he => hb'.2 (he ▸ List.mem_cons_self x seen)
        rw [idxOf, if_neg hax, idxOf, if_neg hbx]
        omega

instance rowLeTotal :
    IsTotal SolutionRow (fun a b => a.start_time ≤ b.start_time) :=
  ⟨fun x y => Int.le_total x.start_time y.start_time⟩

instance rowLeTrans :
    IsTrans SolutionRow (fun a b => a.start_time ≤ b.start_time) :=
  ⟨fun _ _ _ hab hbc => le_trans hab hbc⟩

/-- C9: `_rename_anesthetists` maps the empty input to the empty list;
otherwise it returns the rows sorted by `start_time` ascending, each
original `anesthetist_id` replaced by `"A" + zero-padded(rank + 1, 3)`
where ranks are positions in the list of distinct original ids; that
list is duplicate-free, contains exactly the ids occurring in the
input, and is ordered by each id's first appearance in the sorted
order. -/
theorem rename_anesthetists_spec (assignments : List SolutionRow) :
    (assignments = [] → rename_anesthetists assignments = []) ∧
    (rename_anesthetists assignments =
      (pySortRows assignments).map (fun r =>
        { r with anesthetist_id :=
            labelOf (idxOf (firstOccurs ((pySortRows assignments).map SolutionRow.anesthetist_id))
              r.anesthetist_id) })) ∧
    List.Sorted (fun a b : SolutionRow => a.start_time ≤ b.start_time)
      (rename_anesthetists assignments) ∧
    (firstOccurs ((pySortRows assignments).map SolutionRow.anesthetist_id)).Nodup ∧
    (∀ y, y ∈ firstOccurs ((pySortRows assignments).map SolutionRow.anesthetist_id) ↔
      y ∈ (pySortRows assignments).map SolutionRow.anesthetist_id) ∧
    List.Pairwise (fun a b =>
        idxOf ((pySortRows assignments).map SolutionRow.anesthetist_id) a <
          idxOf ((pySortRows assignments).map SolutionRow.anesthetist_id) b)
      (firstOccurs ((pySortRows assignments).map SolutionRow.anesthetist_id)) := by
  have hsorted : List.Sorted (fun a b : SolutionRow => a.start_time ≤ b.start_time)
      (pySortRows assignments) := List.sorted_insertionSort _ _
  refine ⟨?_, ?_, ?_, firstOccursAux_nodup _ [], ?_, firstOccursAux_pairwise _ []⟩
  · intro h; subst h; rfl
  · rw [rename_anesthetists]
    by_cases hE : assignments.isEmpty
    · rw [if_pos hE]
      have : assignments = [] := by simpa [List.isEmpty_iff] using hE
      subst this
      rfl
    · rw [if_neg hE]
  · rw [rename_anesthetists]
    by_cases hE : assignments.isEmpty
    · rw [if_pos hE]; exact List.sorted_nil
    · rw [if_neg hE]
      exact hsorted.map _ (fun a b h => h)
  · intro y
    rw [firstOccurs, firstOccursAux_mem]
    simp

def asgRenEx : List SolutionRow :=
  [⟨"S2", 33000, 36000, "a7", "R1"⟩, ⟨"S1", 28800, 32400, "a3", "R0"⟩]

theorem rename_anesthetists_spec_witness :
    rename_anesthetists ([] : List SolutionRow) = [] ∧
    List.Sorted (fun a b : SolutionRow => a.start_time ≤ b.start_time)
      (rename_anesthetists asgRenEx) :=
  ⟨(rename_anesthetists_spec []).1 rfl, (rename_anesthetists_spec asgRenEx).2.2.1⟩

/-! ## Optimizer (`opmed/solver_core/optimizer.py`) -/

/-- Variable key grids of the model bundle: the index pairs for which
`ModelBuilder` registered `x[s,a]` and `y[s,r]` BoolVars. -/
structure VarBundle where
  xKeys : List (ℕ × ℕ)
  yKeys : List (ℕ × ℕ)
deriving DecidableEq, Repr

/-- Abstract CP-SAT solver response: the status code returned by
`solver.Solve(model)` and the values `solver.Value(var)` of the Boolean
decision grids, plus `solver.ObjectiveValue()`. -/
structure SolverResponse where
  statusCode : ℤ
  xValue : ℕ × ℕ → Bool
  yValue : ℕ × ℕ → Bool
  objectiveValue : Frac

/-- Structured result of `Optimizer.solve` (runtime omitted: wall-clock
time is not statable in this embedding). -/
structure OptSolveResult where
  assignmentX : List (ℕ × ℕ)
  assignmentY : List (ℕ × ℕ)
  status : String
  objective : Option Frac

/-- `Optimizer._status_name`: readable label for an OR-Tools status
code (`UNKNOWN = 0`, `MODEL_INVALID = 1`, `FEASIBLE = 2`,
`INFEASIBLE = 3`, `OPTIMAL = 4`), with the generic `"STATUS_<code>"`
fallback. -/
def status_name (c : ℤ) : String :=
  if c = 4 then "OPTIMAL"
  else if c = 2 then "FEASIBLE"
  else if c = 3 then "INFEASIBLE"
  else if c = 1 then "MODEL_INVALID"
  else if c = 0 then "UNKNOWN"
  else "STATUS_" ++ toString c

/-- `Optimizer._extract_assignments`: the key pairs whose BoolVar the
solver set to 1, in grid registration order. -/
def extract_assignments (resp : SolverResponse) (b : VarBundle) :
    List (ℕ × ℕ) × List (ℕ × ℕ) :=
  (b.xKeys.filter (fun k => resp.xValue k), b.yKeys.filter (fun k => resp.yValue k))

/-- `Optimizer.solve`: assignments and objective are populated only
when the status code is `OPTIMAL` or `FEASIBLE`; otherwise the empty
assignment and a `None` objective are returned with the mapped status
string. -/
def optimizer_solve (resp : SolverResponse) (b : VarBundle) : OptSolveResult :=
  if resp.statusCode = 4 ∨ resp.statusCode = 2 then
    { assignmentX := (extract_assignments resp b).1
      assignmentY := (extract_assignments resp b).2
      status := status_name resp.statusCode
      objective := some resp.objectiveValue }
  else
    { assignmentX := []
      assignmentY := []
      status := status_name resp.statusCode
      objective := none }

/-- C7: `Optimizer.solve` returns empty assignment lists and a `None`
objective whenever the solver status is neither `OPTIMAL` nor
`FEASIBLE`; on `OPTIMAL`/`FEASIBLE` the assignment contains exactly the
registered index pairs whose variable the solver set to 1; and the
reported status string is one of the five canonical names or the
`"STATUS_<code>"` fallback. -/
theorem optimizer_solve_spec (resp : SolverResponse) (b : VarBundle) :
    (resp.statusCode ≠ 4 → resp.statusCode ≠ 2 →
      (optimizer_solve resp b).assignmentX = [] ∧
        (optimizer_solve resp b).assignmentY = [] ∧
        (optimizer_solve resp b).objective = none) ∧
    (resp.statusCode = 4 ∨ resp.statusCode = 2 →
      (∀ p, p ∈ (optimizer_solve resp b).assignmentX ↔
          p ∈ b.xKeys ∧ resp.xValue p = true) ∧
      (∀ p, p ∈ (optimizer_solve resp b).assignmentY ↔
          p ∈ b.yKeys ∧ resp.yValue p = true)) ∧
    ((optimizer_solve resp b).status ∈
        ["OPTIMAL", "FEASIBLE", "INFEASIBLE", "MODEL_INVALID", "UNKNOWN"] ∨
      ∃ c : ℤ, (optimizer_solve resp b).status = "STATUS_" ++ toString c) := by
  refine ⟨?_, ?_, ?_⟩
  · intro h4 h2
    rw [optimizer_solve, if_neg (by tauto)]
    exact ⟨rfl, rfl, rfl⟩
  · intro h
    rw [optimizer_solve, if_pos h]
    exact ⟨fun p => List.mem_filter, fun p => List.mem_filter⟩
  · have hst : (optimizer_solve resp b).status = status_name resp.statusCode := by
      rw [optimizer_solve]
      split <;> rfl
    rw [hst, status_name]
    split_ifs <;> first
      | exact Or.inr ⟨resp.statusCode, rfl⟩
      | simp

def bundleEx : VarBundle := ⟨[(0, 0), (0, 1)], [(0, 0)]⟩

def respInfeasible : SolverResponse :=
  ⟨3, fun _ => false, fun _ => false, ⟨0, 1⟩⟩

def respOptimal : SolverResponse :=
  ⟨4, fun p => decide (p = (0, 1)), fun _ => true, ⟨10, 1⟩⟩

theorem optimizer_solve_spec_witness :
    ((optimizer_solve respInfeasible bundleEx).assignmentX = [] ∧
      (optimizer_solve respInfeasible bundleEx).assignmentY = [] ∧
      (optimizer_solve respInfeasible bundleEx).objective = none) ∧
    ((0, 1) ∈ (optimizer_solve respOptimal bundleEx).assignmentX ↔
      (0, 1) ∈ bundleEx.xKeys ∧ respOptimal.xValue (0, 1) = true) :=
  ⟨(optimizer_solve_spec respInfeasible bundleEx).1 (by decide) (by decide),
   ((optimizer_solve_spec respOptimal bundleEx).2.1 (Or.inl rfl)).1 (0, 1)⟩

/-! ## ModelBuilder (`opmed/solver_core/model_builder.py`) -/

/-- `ticks_per_hour = int(round(1 / cfg.time_unit))`. -/
def ticksPerHour (cfg : Config) : ℤ := pyRoundF (Frac.div ⟨1, 1⟩ cfg.time_unit)

/-- Earliest `start_time` of the surgery list (`min(...)`). -/
def minStartTime : List Surgery → ℤ
  | [] => 0
  | s :: rest => rest.foldl (fun m x => min m x.start_time) s.start_time

/-- `t_origin`: midnight (UTC) of the earliest surgery day, i.e. the
start of the epoch day containing the earliest start. -/
def tOrigin (surgeries : List Surgery) : ℤ :=
  86400 * Int.fdiv (minStartTime surgeries) 86400

/-- Conversion of one timestamp to ticks:
`int(round((seconds / 3600) * ticks_per_hour))`. -/
def toTicks (tph origin t : ℤ) : ℤ := pyRoundF ⟨(t - origin) * tph, 3600⟩

/-- The non-positive-duration guard of `_create_intervals` step (6.3):
a converted duration `≤ 0` is forced to exactly one tick by setting
`end_ticks = start_ticks + 1`; otherwise ticks are kept unchanged. -/
def fixTicks (st en : ℤ) : ℤ × ℤ := if en - st ≤ 0 then (st, st + 1) else (st, en)

/-- Converted and guarded `(start_ticks, end_ticks)` per surgery. -/
def surgeryTicks (cfg : Config) (surgeries : List Surgery) : List (ℤ × ℤ) :=
  surgeries.map (fun s =>
    fixTicks (toTicks (ticksPerHour cfg) (tOrigin surgeries) s.start_time)
      (toTicks (ticksPerHour cfg) (tOrigin surgeries) s.end_time))

/-- `max_time_ticks`: running maximum of the (guarded) end ticks,
starting from 0. -/
def horizonOf (ticks : List (ℤ × ℤ)) : ℤ := ticks.foldl (fun m p => max m p.2) 0

/-- The data `ModelBuilder.build` derives from its inputs and on which
every posted constraint depends: counts, per-surgery ticks, horizon,
and the rounded tick-unit parameters. -/
structure ModelData where
  S : ℕ
  R : ℕ
  startT : List ℤ
  endT : List ℤ
  horizon : ℤ
  bufferTicks : ℤ
  shiftMaxT : ℤ
  shiftMinT : ℤ
  shiftOvT : ℤ
  shortfallCoeff : ℤ
  apZero : Bool
deriving DecidableEq, Repr

/-- `start_ticks[i]` (0 outside range). -/
def ModelData.startF (md : ModelData) (i : ℕ) : ℤ := md.startT.getD i 0

/-- `end_ticks[i]` (0 outside range). -/
def ModelData.endF (md : ModelData) (i : ℕ) : ℤ := md.endT.getD i 0

/-- A Python exception aborting model construction. -/
inductive BuildError where
  | keyError : String → BuildError
deriving DecidableEq, Repr

instance : DecidableEq (Except BuildError ModelData) := fun a b =>
  match a, b with
  | .ok x, .ok y =>
      if h : x = y then isTrue (by rw [h]) else isFalse (fun hh => h (by injection hh))
  | .error x, .error y =>
      if h : x = y then isTrue (by rw [h]) else isFalse (fun hh => h (by injection hh))
  | .ok _, .error _ => isFalse (fun hh => by cases hh)
  | .error _, .ok _ => isFalse (fun hh => by cases hh)

/-- `ModelBuilder.build`.  On an empty surgery list,
`_create_intervals` returns before storing any aux entry, and
`_add_buffer_constraints` then evaluates `self.aux["buffer_ticks"]`,
raising `KeyError`; otherwise construction succeeds and yields the
model data every constraint is posted against. -/
def buildModel (cfg : Config) (surgeries : List Surgery) : Except BuildError ModelData :=
  if surgeries.isEmpty then .error (.keyError "buffer_ticks")
  else
    .ok { S := surgeries.length
          R := cfg.rooms_max
          startT := (surgeryTicks cfg surgeries).map Prod.fst
          endT := (surgeryTicks cfg surgeries).map Prod.snd
          horizon := horizonOf (surgeryTicks cfg surgeries)
          bufferTicks := pyRoundF (Frac.div cfg.buffer cfg.time_unit)
          shiftMaxT := pyRoundF (Frac.mul cfg.shift_max (Frac.ofInt (ticksPerHour cfg)))
          shiftMinT := pyRoundF (Frac.mul cfg.shift_min (Frac.ofInt (ticksPerHour cfg)))
          shiftOvT := pyRoundF (Frac.mul cfg.shift_overtime (Frac.ofInt (ticksPerHour cfg)))
          shortfallCoeff := pyRoundF (Frac.div cfg.activation_penalty cfg.time_unit)
          apZero := decide (cfg.activation_penalty.n = 0) }

/-- Valuation of every decision variable `ModelBuilder` creates
(indices beyond the model's ranges are irrelevant). -/
structure CpValuation where
  x : ℕ → ℕ → Bool
  y : ℕ → ℕ → Bool
  active : ℕ → Bool
  tmin : ℕ → ℤ
  tmax : ℕ → ℤ
  startP : ℕ → ℕ → ℤ
  endP : ℕ → ℕ → ℤ
  tminA : ℕ → ℤ
  tmaxA : ℕ → ℤ
  bBoth : ℕ → ℕ → ℕ → Bool
  bSameRoom : ℕ → ℕ → Bool
  bSameA : ℕ → ℕ → ℕ → Bool
  duration : ℕ → ℤ
  basePart : ℕ → ℤ
  ovDiff : ℕ → ℤ
  overtimePart : ℕ → ℤ
  cost2 : ℕ → ℤ
  durCopy : ℕ → ℤ
  shortfall : ℕ → ℤ
  shortDiff : ℕ → ℤ
  penaltyTerm : ℕ → ℤ
  roomUsed : ℕ → Bool

/-- A dangerous pair (`_add_buffer_constraints` step (3)):
`s1 ≠ s2` and `end_ticks[s1] ≤ start_ticks[s2] < end_ticks[s1] +
buffer_ticks`. -/
def dangerous (md : ModelData) (s1 s2 : ℕ) : Prop :=
  s1 ≠ s2 ∧ md.endF s1 ≤ md.startF s2 ∧ md.startF s2 < md.endF s1 + md.bufferTicks

instance (md : ModelData) (s1 s2 : ℕ) : Decidable (dangerous md s1 s2) := by
  unfold dangerous; infer_instance

/-- `_add_assignment_cardinality`: `AddExactlyOne` over the
anesthesiologist row and over the room row of every surgery. -/
def ExactlyOneCons (md : ModelData) (v : CpValuation) : Prop :=
  (∀ s : Fin md.S,
    (Finset.univ.sum fun a : Fin md.S => if v.x s.1 a.1 then (1 : ℤ) else 0) = 1) ∧
  (∀ s : Fin md.S,
    (Finset.univ.sum fun r : Fin md.R => if v.y s.1 r.1 then (1 : ℤ) else 0) = 1)

/-- `_add_room_nooverlap`: per room, `AddNoOverlap` over the optional
intervals gated by `y[s,r]` — any two performed intervals are
disjoint. -/
def RoomNoOverlapCons (md : ModelData) (v : CpValuation) : Prop :=
  ∀ r : Fin md.R, ∀ s1 s2 : Fin md.S, s1 ≠ s2 →
    v.y s1.1 r.1 = true → v.y s2.1 r.1 = true →
    md.endF s1.1 ≤ md.startF s2.1 ∨ md.endF s2.1 ≤ md.startF s1.1

/-- `_add_anesth_nooverlap`: per anesthesiologist slot, `AddNoOverlap`
over the optional intervals gated by `x[s,a]`. -/
def AnesthNoOverlapCons (md : ModelData) (v : CpValuation) : Prop :=
  ∀ a : Fin md.S, ∀ s1 s2 : Fin md.S, s1 ≠ s2 →
    v.x s1.1 a.1 = true → v.x s2.1 a.1 = true →
    md.endF s1.1 ≤ md.startF s2.1 ∨ md.endF s2.1 ≤ md.startF s1.1

/-- `_add_buffer_constraints` steps (4)–(6), for every dangerous pair:
full reification of `b_both_in_r` and of `b_same_room`, half
reification of `b_same_anesth_lit` (the source posts only
`AddBoolAnd(...).OnlyEnforceIf(b)` for it, never the converse), and the
implication `b_same_anesth_lit → b_same_room`. -/
def BufferCons (md : ModelData) (v : CpValuation) : Prop :=
  ∀ s1 s2 : Fin md.S, dangerous md s1.1 s2.1 →
    (∀ r : Fin md.R,
      (v.bBoth s1.1 s2.1 r.1 = true → v.y s1.1 r.1 = true ∧ v.y s2.1 r.1 = true) ∧
      (v.bBoth s1.1 s2.1 r.1 = false → v.y s1.1 r.1 = false ∨ v.y s2.1 r.1 = false)) ∧
    (v.bSameRoom s1.1 s2.1 = true → ∃ r : Fin md.R, v.bBoth s1.1 s2.1 r.1 = true) ∧
    (v.bSameRoom s1.1 s2.1 = false →
      (Finset.univ.sum fun r : Fin md.R => if v.bBoth s1.1 s2.1 r.1 then (1 : ℤ) else 0) = 0) ∧
    (∀ a : Fin md.S,
      (v.bSameA a.1 s1.1 s2.1 = true → v.x s1.1 a.1 = true ∧ v.x s2.1 a.1 = true) ∧
      (v.bSameA a.1 s1.1 s2.1 = true → v.bSameRoom s1.1 s2.1 = true))

/-- `_add_shift_duration_bounds`, per anesthesiologist slot: variable
domains, the `active` reification, the proxy variables, the
unconditional `AddMinEquality`/`AddMaxEquality`, the conditional
linkage to `t_min`/`t_max`, the shift bound, and the inactive case. -/
def ShiftCons (md : ModelData) (v : CpValuation) : Prop :=
  ∀ a : Fin md.S,
    (0 ≤ v.tmin a.1 ∧ v.tmin a.1 ≤ md.horizon) ∧
    (0 ≤ v.tmax a.1 ∧ v.tmax a.1 ≤ md.horizon) ∧
    (v.active a.1 = true → ∃ s : Fin md.S, v.x s.1 a.1 = true) ∧
    (∀ s : Fin md.S, v.active a.1 = false → v.x s.1 a.1 = false) ∧
    (∀ s : Fin md.S, v.x s.1 a.1 = true → v.active a.1 = true) ∧
    (∀ s : Fin md.S,
      (0 ≤ v.startP a.1 s.1 ∧ v.startP a.1 s.1 ≤ md.horizon) ∧
      (0 ≤ v.endP a.1 s.1 ∧ v.endP a.1 s.1 ≤ md.horizon) ∧
      (v.x s.1 a.1 = true → v.startP a.1 s.1 = md.startF s.1) ∧
      (v.x s.1 a.1 = false → v.startP a.1 s.1 = md.horizon) ∧
      (v.x s.1 a.1 = true → v.endP a.1 s.1 = md.endF s.1) ∧
      (v.x s.1 a.1 = false → v.endP a.1 s.1 = 0)) ∧
    (0 ≤ v.tminA a.1 ∧ v.tminA a.1 ≤ md.horizon) ∧
    (0 ≤ v.tmaxA a.1 ∧ v.tmaxA a.1 ≤ md.horizon) ∧
    (∀ s : Fin md.S, v.tminA a.1 ≤ v.startP a.1 s.1) ∧
    (∃ s : Fin md.S, v.tminA a.1 = v.startP a.1 s.1) ∧
    (∀ s : Fin md.S, v.endP a.1 s.1 ≤ v.tmaxA a.1) ∧
    (∃ s : Fin md.S, v.tmaxA a.1 = v.endP a.1 s.1) ∧
    (v.active a.1 = true → v.tmin a.1 = v.tminA a.1) ∧
    (v.active a.1 = true → v.tmax a.1 = v.tmaxA a.1) ∧
    (v.active a.1 = true → v.tmax a.1 - v.tmin a.1 ≤ md.shiftMaxT) ∧
    (v.active a.1 = false → v.tmin a.1 = 0) ∧
    (v.active a.1 = false → v.tmax a.1 = 0)

/-- `_add_objective_piecewise_cost` step (3), per slot: domains and
defining equations of `duration`, `base_part`, `ov_diff`,
`overtime_part` and the conditional `cost2` equations. -/
def CostCons (md : ModelData) (v : CpValuation) : Prop :=
  ∀ a : Fin md.S,
    (0 ≤ v.duration a.1 ∧ v.duration a.1 ≤ md.horizon) ∧
    v.duration a.1 = v.tmax a.1 - v.tmin a.1 ∧
    (0 ≤ v.basePart a.1 ∧ v.basePart a.1 ≤ md.horizon) ∧
    v.basePart a.1 = max (v.duration a.1) md.shiftMinT ∧
    (-md.horizon ≤ v.ovDiff a.1 ∧ v.ovDiff a.1 ≤ md.horizon) ∧
    v.ovDiff a.1 = v.duration a.1 - md.shiftOvT ∧
    (0 ≤ v.overtimePart a.1 ∧ v.overtimePart a.1 ≤ md.horizon) ∧
    v.overtimePart a.1 = max (v.ovDiff a.1) 0 ∧
    (0 ≤ v.cost2 a.1 ∧ v.cost2 a.1 ≤ 3 * md.horizon) ∧
    (v.active a.1 = true → v.cost2 a.1 = 2 * v.basePart a.1 + v.overtimePart a.1) ∧
    (v.active a.1 = false → v.cost2 a.1 = 0)

/-- `_add_objective_piecewise_cost` step (4), per slot: the shortfall
block (`dur_copy`, `short_diff`, `shortfall`, `penalty_short`). -/
def ShortfallCons (md : ModelData) (v : CpValuation) : Prop :=
  ∀ a : Fin md.S,
    (0 ≤ v.durCopy a.1 ∧ v.durCopy a.1 ≤ md.horizon) ∧
    v.durCopy a.1 = v.tmax a.1 - v.tmin a.1 ∧
    (0 ≤ v.shortfall a.1 ∧ v.shortfall a.1 ≤ md.shiftMinT) ∧
    (-md.horizon ≤ v.shortDiff a.1 ∧ v.shortDiff a.1 ≤ md.horizon) ∧
    v.shortDiff a.1 = md.shiftMinT - v.durCopy a.1 ∧
    v.shortfall a.1 = max (v.shortDiff a.1) 0 ∧
    (0 ≤ v.penaltyTerm a.1 ∧ v.penaltyTerm a.1 ≤ md.shiftMinT * md.shortfallCoeff) ∧
    (v.active a.1 = true → v.penaltyTerm a.1 = v.shortfall a.1 * md.shortfallCoeff) ∧
    (v.active a.1 = false → v.penaltyTerm a.1 = 0)

/-- The `room_used` reification posted only in the extended-objective
variant (`activation_penalty != 0`). -/
def RoomUsedCons (md : ModelData) (v : CpValuation) : Prop :=
  md.apZero = false → ∀ r : Fin md.R,
    (v.roomUsed r.1 = true → ∃ s : Fin md.S, v.y s.1 r.1 = true) ∧
    (∀ s : Fin md.S, v.roomUsed r.1 = false → v.y s.1 r.1 = false)

/-- A feasible solution of the CP-SAT model built by
`ModelBuilder.build`: the conjunction of every posted constraint
family, in source order. -/
def Feasible (md : ModelData) (v : CpValuation) : Prop :=
  ExactlyOneCons md v ∧ RoomNoOverlapCons md v ∧ AnesthNoOverlapCons md v ∧
    BufferCons md v ∧ ShiftCons md v ∧ CostCons md v ∧ ShortfallCons md v ∧
    RoomUsedCons md v

instance (md : ModelData) (v : CpValuation) : Decidable (ExactlyOneCons md v) := by
  unfold ExactlyOneCons; infer_instance

instance (md : ModelData) (v : CpValuation) : Decidable (RoomNoOverlapCons md v) := by
  unfold RoomNoOverlapCons; infer_instance

instance (md : ModelData) (v : CpValuation) : Decidable (AnesthNoOverlapCons md v) := by
  unfold AnesthNoOverlapCons; infer_instance

instance (md : ModelData) (v : CpValuation) : Decidable (BufferCons md v) := by
  unfold BufferCons; infer_instance

instance (md : ModelData) (v : CpValuation) : Decidable (ShiftCons md v) := by
  unfold ShiftCons; infer_instance

instance (md : ModelData) (v : CpValuation) : Decidable (CostCons md v) := by
  unfold CostCons; infer_instance

instance (md : ModelData) (v : CpValuation) : Decidable (ShortfallCons md v) := by
  unfold ShortfallCons; infer_instance

instance (md : ModelData) (v : CpValuation) : Decidable (RoomUsedCons md v) := by
  unfold RoomUsedCons; infer_instance

instance (md : ModelData) (v : CpValuation) : Decidable (Feasible md v) := by
  unfold Feasible; infer_instance

/-- C8: for every surgery whose converted tick duration is `≤ 0`,
`_create_intervals` forces `end_ticks = start_ticks + 1`; surgeries
with positive tick duration keep their converted ticks unchanged; and
every created interval has positive size. -/
theorem create_intervals_duration_fix (cfg : Config) (surgeries : List Surgery) :
    (surgeryTicks cfg surgeries = surgeries.map (fun s =>
      fixTicks (toTicks (ticksPerHour cfg) (tOrigin surgeries) s.start_time)
        (toTicks (ticksPerHour cfg) (tOrigin surgeries) s.end_time))) ∧
    (∀ st en : ℤ,
      (en - st ≤ 0 → fixTicks st en = (st, st + 1)) ∧
      (0 < en - st → fixTicks st en = (st, en))) ∧
    (∀ p ∈ surgeryTicks cfg surgeries, 0 < p.2 - p.1) := by
  refine ⟨rfl, ?_, ?_⟩
  · intro st en
    constructor
    · intro h; rw [fixTicks, if_pos h]
    · intro h; rw [fixTicks, if_neg (by omega)]
  · intro p hp
    rw [surgeryTicks] at hp
    rcases List.mem_map.mp hp with ⟨s, -, hs⟩
    rw [fixTicks] at hs
    split at hs <;> rw [← hs] <;> omega

def surFixEx : List Surgery := [⟨"Z1", 28800, 28800⟩]

theorem create_intervals_duration_fix_witness :
    fixTicks 96 96 = (96, 97) ∧ fixTicks 96 108 = (96, 108) ∧
    (0 : ℤ) < ((96 : ℤ), (97 : ℤ)).2 - ((96 : ℤ), (97 : ℤ)).1 :=
  ⟨((create_intervals_duration_fix cfgEx surFixEx).2.1 96 96).1 (by decide),
   ((create_intervals_duration_fix cfgEx surFixEx).2.1 96 108).2 (by decide),
   (create_intervals_duration_fix cfgEx surFixEx).2.2 (96, 97) (by decide)⟩

/-- C5: on an empty input the pipeline cannot produce the specified
empty schedule with `valid = true`: `ModelBuilder.build` raises
`KeyError('buffer_ticks')` (the aux store is never populated), and
independently the validator's `_check_data_integrity` raises
`ValidationError` on an empty assignment set, for every
configuration. -/
theorem empty_input_crashes (cfg : Config) :
    buildModel cfg [] = .error (.keyError "buffer_ticks") ∧
    run_all_checks [] [] cfg = .error () :=
  ⟨rfl, rfl⟩

theorem buildModel_ok_params (cfg : Config) (surgeries : List Surgery) (md : ModelData)
    (h : buildModel cfg surgeries = .ok md) :
    md.shiftMaxT = pyRoundF (Frac.mul cfg.shift_max (Frac.ofInt (ticksPerHour cfg))) ∧
    md.shiftMinT = pyRoundF (Frac.mul cfg.shift_min (Frac.ofInt (ticksPerHour cfg))) ∧
    md.shiftOvT = pyRoundF (Frac.mul cfg.shift_overtime (Frac.ofInt (ticksPerHour cfg))) := by
  rw [buildModel] at h
  split at h
  · cases h
  · injection h with h
    subst h
    exact ⟨rfl, rfl, rfl⟩

/-- Turn a Boolean hypothesis `¬ b = true` into `b = false`. -/
theorem bool_not_true {b : Bool} (h : ¬ b = true) : b = false := by
  cases b
  · rfl
  · exact absurd rfl h

/-- C3: in every feasible solution of the built model, `active[a]` is
set iff some surgery is assigned to `a`; for an active slot, `t_min[a]`
is the minimum assigned start tick, `t_max[a]` the maximum assigned end
tick, and the span is bounded by `round(shift_max * ticks_per_hour)`;
an inactive slot has `t_min = t_max = 0` and `cost2 = 0`. -/
theorem shift_span_linkage (cfg : Config) (surgeries : List Surgery) (md : ModelData)
    (v : CpValuation) (hmd : buildModel cfg surgeries = .ok md) (hf : Feasible md v)
    (a : Fin md.S) :
    (v.active a.1 = true ↔ ∃ s : Fin md.S, v.x s.1 a.1 = true) ∧
    (v.active a.1 = true →
      ((∀ s : Fin md.S, v.x s.1 a.1 = true → v.tmin a.1 ≤ md.startF s.1) ∧
        (∃ s : Fin md.S, v.x s.1 a.1 = true ∧ v.tmin a.1 = md.startF s.1)) ∧
      ((∀ s : Fin md.S, v.x s.1 a.1 = true → md.endF s.1 ≤ v.tmax a.1) ∧
        (∃ s : Fin md.S, v.x s.1 a.1 = true ∧ v.tmax a.1 = md.endF s.1)) ∧
      v.tmax a.1 - v.tmin a.1 ≤
        pyRoundF (Frac.mul cfg.shift_max (Frac.ofInt (ticksPerHour cfg)))) ∧
    (v.active a.1 = false → v.tmin a.1 = 0 ∧ v.tmax a.1 = 0 ∧ v.cost2 a.1 = 0) := by
  obtain ⟨-, -, -, -, hshift, hcost, -, -⟩ := hf
  obtain ⟨hdmin, hdmax, hact_ex, hact_zero, hact_imp, hprox, hminAdom, hmaxAdom,
    hminle, hminex, hmaxle, hmaxex, hlink_min, hlink_max, hbound, hz_min, hz_max⟩ := hshift a
  refine ⟨⟨fun ha => hact_ex ha, fun ⟨s, hs⟩ => hact_imp s hs⟩, ?_, ?_⟩
  · intro ha
    obtain ⟨s0, hs0⟩ := hact_ex ha
    have hlmin := hlink_min ha
    have hlmax := hlink_max ha
    refine ⟨⟨?_, ?_⟩, ⟨?_, ?_⟩, ?_⟩
    · intro s hs
      have h1 := hminle s
      have h2 := (hprox s).2.2.1 hs
      omega
    · obtain ⟨s1, hs1⟩ := hminex
      by_cases hx1 : v.x s1.1 a.1 = true
      · exact ⟨s1, hx1, by rw [hlmin, hs1, (hprox s1).2.2.1 hx1]⟩
      · have hsp1 : v.startP a.1 s1.1 = md.horizon :=
          (hprox s1).2.2.2.1 (bool_not_true hx1)
        have h1 := hminle s0
        have h2 := (hprox s0).2.2.1 hs0
        have h3 := (hprox s0).1.2
        refine ⟨s0, hs0, ?_⟩
        omega
    · intro s hs
      have h1 := hmaxle s
      have h2 := (hprox s).2.2.2.2.1 hs
      omega
    · obtain ⟨s1, hs1⟩ := hmaxex
      by_cases hx1 : v.x s1.1 a.1 = true
      · exact ⟨s1, hx1, by rw [hlmax, hs1, (hprox s1).2.2.2.2.1 hx1]⟩
      · have hep1 : v.endP a.1 s1.1 = 0 :=
          (hprox s1).2.2.2.2.2 (bool_not_true hx1)
        have h1 := hmaxle s0
        have h2 := (hprox s0).2.2.2.2.1 hs0
        have h3 := (hprox s0).2.1.1
        refine ⟨s0, hs0, ?_⟩
        omega
    · have := hbound ha
      rw [← (buildModel_ok_params cfg surgeries md hmd).1]
      exact this
  · intro ha
    obtain ⟨-, -, -, -, -, -, -, -, -, -, hc0⟩ := hcost a
    exact ⟨hz_min ha, hz_max ha, hc0 ha⟩

/-- C4: in every feasible solution of the built model, the objective
term of an active slot is
`cost2[a] = 2·max(t_max − t_min, shift_min_ticks) +
max(0, (t_max − t_min) − shift_overtime_ticks)` with the tick
parameters rounded from the configuration. -/
theorem piecewise_cost_formula (cfg : Config) (surgeries : List Surgery) (md : ModelData)
    (v : CpValuation) (hmd : buildModel cfg surgeries = .ok md) (hf : Feasible md v)
    (a : Fin md.S) (ha : v.active a.1 = true) :
    v.cost2 a.1 =
      2 * max (v.tmax a.1 - v.tmin a.1)
          (pyRoundF (Frac.mul cfg.shift_min (Frac.ofInt (ticksPerHour cfg)))) +
        max 0 ((v.tmax a.1 - v.tmin a.1) -
          pyRoundF (Frac.mul cfg.shift_overtime (Frac.ofInt (ticksPerHour cfg)))) := by
  obtain ⟨-, -, -, -, -, hcost, -, -⟩ := hf
  obtain ⟨-, hdur, -, hbase, -, hov, -, hot, -, hceq, -⟩ := hcost a
  rw [hceq ha, hbase, hot, hov, hdur]
  rw [← (buildModel_ok_params cfg surgeries md hmd).2.1,
    ← (buildModel_ok_params cfg surgeries md hmd).2.2]
  rw [max_comm (v.tmax a.1 - v.tmin a.1 - md.shiftOvT) 0]

def surW : List Surgery := [⟨"S1", 28800, 32400⟩]

def mdW : ModelData :=
  ⟨1, 2, [96], [108], 108, 3, 144, 60, 108, 0, true⟩

def vW : CpValuation :=
  { x := fun s a => decide (s = 0 ∧ a = 0)
    y := fun s r => decide (s = 0 ∧ r = 0)
    active := fun a => decide (a = 0)
    tmin := fun a => if a = 0 then 96 else 0
    tmax := fun a => if a = 0 then 108 else 0
    startP := fun _ _ => 96
    endP := fun _ _ => 108
    tminA := fun _ => 96
    tmaxA := fun _ => 108
    bBoth := fun _ _ _ => false
    bSameRoom := fun _ _ => false
    bSameA := fun _ _ _ => false
    duration := fun _ => 12
    basePart := fun _ => 60
    ovDiff := fun _ => -96
    overtimePart := fun _ => 0
    cost2 := fun a => if a = 0 then 120 else 0
    durCopy := fun _ => 12
    shortfall := fun _ => 48
    shortDiff := fun _ => 48
    penaltyTerm := fun _ => 0
    roomUsed := fun _ => false }

theorem shift_span_linkage_witness :
    (vW.active 0 = true ↔ ∃ s : Fin mdW.S, vW.x s.1 0 = true) ∧
    (vW.active 0 = true →
      ((∀ s : Fin mdW.S, vW.x s.1 0 = true → vW.tmin 0 ≤ mdW.startF s.1) ∧
        (∃ s : Fin mdW.S, vW.x s.1 0 = true ∧ vW.tmin 0 = mdW.startF s.1)) ∧
      ((∀ s : Fin mdW.S, vW.x s.1 0 = true → mdW.endF s.1 ≤ vW.tmax 0) ∧
        (∃ s : Fin mdW.S, vW.x s.1 0 = true ∧ vW.tmax 0 = mdW.endF s.1)) ∧
      vW.tmax 0 - vW.tmin 0 ≤
        pyRoundF (Frac.mul cfgEx.shift_max (Frac.ofInt (ticksPerHour cfgEx)))) ∧
    (vW.active 0 = false → vW.tmin 0 = 0 ∧ vW.tmax 0 = 0 ∧ vW.cost2 0 = 0) :=
  shift_span_linkage cfgEx surW mdW vW (by decide) (by decide) ⟨0, by decide⟩

theorem piecewise_cost_formula_witness :
    vW.cost2 0 =
      2 * max (vW.tmax 0 - vW.tmin 0)
          (pyRoundF (Frac.mul cfgEx.shift_min (Frac.ofInt (ticksPerHour cfgEx)))) +
        max 0 ((vW.tmax 0 - vW.tmin 0) -
          pyRoundF (Frac.mul cfgEx.shift_overtime (Frac.ofInt (ticksPerHour cfgEx)))) :=
  piecewise_cost_formula cfgEx surW mdW vW (by decide) (by decide) ⟨0, by decide⟩ (by decide)

def cfgC1 : Config :=
  { time_unit := ⟨1, 12⟩
    rooms_max := 2
    shift_min := ⟨5, 1⟩
    shift_max := ⟨12, 1⟩
    shift_overtime := ⟨9, 1⟩
    overtime_multiplier := ⟨3, 2⟩
    buffer := ⟨1, 6⟩
    utilization_target := ⟨4, 5⟩
    enforce_surgery_duration_limit := true
    activation_penalty := ⟨0, 1⟩ }

def surC1 : List Surgery := [⟨"S1", 28800, 32400⟩, ⟨"S2", 32700, 36000⟩]

def mdC1 : ModelData :=
  ⟨2, 2, [96, 109], [108, 120], 120, 2, 144, 60, 108, 0, true⟩

def vC1 : CpValuation :=
  { x := fun s a => decide (s ≤ 1 ∧ a = 0)
    y := fun s r => decide ((s = 0 ∧ r = 0) ∨ (s = 1 ∧ r = 1))
    active := fun a => decide (a = 0)
    tmin := fun a => if a = 0 then 96 else 0
    tmax := fun a => if a = 0 then 120 else 0
    startP := fun a s => if a = 0 then (if s = 0 then 96 else 109) else 120
    endP := fun a s => if a = 0 then (if s = 0 then 108 else 120) else 0
    tminA := fun a => if a = 0 then 96 else 120
    tmaxA := fun a => if a = 0 then 120 else 0
    bBoth := fun _ _ _ => false
    bSameRoom := fun _ _ => false
    bSameA := fun _ _ _ => false
    duration := fun a => if a = 0 then 24 else 0
    basePart := fun _ => 60
    ovDiff := fun a => if a = 0 then -84 else -108
    overtimePart := fun _ => 0
    cost2 := fun a => if a = 0 then 120 else 0
    durCopy := fun a => if a = 0 then 24 else 0
    shortfall := fun a => if a = 0 then 36 else 60
    shortDiff := fun a => if a = 0 then 36 else 60
    penaltyTerm := fun _ => 0
    roomUsed := fun _ => false }

/-- C1 fails on the code: the model built for a two-surgery dangerous
pair admits a feasible solution in which both surgeries are assigned to
anesthesiologist slot 0 yet are placed in different rooms — the
`b_same_anesth_lit` literal is only half reified
(`AddBoolAnd(...).OnlyEnforceIf(b)` without the converse side), so the
solver may set it to 0 and escape the `same anesthesiologist → same
room` rule that `_add_buffer_constraints` documents. -/
theorem buffer_rule_not_enforced :
    buildModel cfgC1 surC1 = .ok mdC1 ∧
    Feasible mdC1 vC1 ∧
    dangerous mdC1 0 1 ∧
    vC1.x 0 0 = true ∧ vC1.x 1 0 = true ∧
    ¬ ∃ r : Fin mdC1.R, vC1.y 0 r.1 = true ∧ vC1.y 1 r.1 = true := by
  refine ⟨by decide, by decide, by decide, by decide, by decide, ?_⟩
  decide
